import Mathlib

/-!
Shallow embedding of the compiler-core support routines of `src/globals.c`
(shecc: symbol tables, hashmap, scope tree, CFG edges), together with
theorems settling the frozen claims about them.

Modelling conventions:
* C `int` values are modelled at the bit-pattern level as `Nat` in
  `[0, 2^32)` where 32-bit wraparound matters (the FNV-1a hash), and as
  plain `Nat` where the claims restrict inputs to ranges with no overflow
  (`round_up_pow2` on `1 ≤ v ≤ 2^30`).
* NUL-terminated C strings are byte lists (`List Nat`), compared element
  by element exactly as `strcmp`-equality does.
* Pointers to heap objects are modelled as identifiers (`Nat`) into an
  explicit store, or as `Option`-carrying inductive values where a claim
  only inspects the pointee.
-/

/- ------------------------------------------------------------------ -/
/- C strings                                                           -/
/- ------------------------------------------------------------------ -/

/-- A NUL-terminated C string, as the list of its (non-NUL) bytes.
`strcmp(a, b) == 0` is list equality. -/
abbrev cstr := List Nat

/- ------------------------------------------------------------------ -/
/- hashmap_hash_index / round_up_pow2 (globals.c lines 82-105)         -/
/- ------------------------------------------------------------------ -/

/-- One step of the FNV-1a loop body of `hashmap_hash_index`:
`hash ^= *key; hash *= 0x01000193;` on a 32-bit machine word,
kept as a bit pattern in `[0, 2^32)`. -/
def fnv_step (hash b : Nat) : Nat :=
  ((hash ^^^ b) * 0x01000193) % 2 ^ 32

/-- The `for (; *key; key++)` accumulation of `hashmap_hash_index`,
starting from the offset basis `0x811c9dc5`. -/
def fnv_accum (key : cstr) : Nat :=
  key.foldl fnv_step 0x811c9dc5

/-- `hashmap_hash_index(size, key)` from globals.c:
FNV-1a accumulation, then `mask = hash >> 31` (arithmetic shift of the
32-bit word, i.e. all-ones when the sign bit is set), the sign fold
`(hash ^ mask) - mask` (subtraction wrapping mod 2^32), and finally
`& (size - 1)`. -/
def hashmap_hash_index (size : Nat) (key : cstr) : Nat :=
  let hash := fnv_accum key
  let mask := if hash < 2 ^ 31 then 0 else 2 ^ 32 - 1
  (((hash ^^^ mask) + (2 ^ 32 - mask)) % 2 ^ 32) &&& (size - 1)

/-- `round_up_pow2(v)` from globals.c: `v--`, five or-shift smearing
steps, `v++`.  Modelled on `Nat`; for the claimed domain
`1 ≤ v ≤ 2^30` every intermediate value fits in 31 bits, so the C
`int` computation and this one coincide. -/
def round_up_pow2 (v : Nat) : Nat :=
  let v := v - 1
  let v := v ||| (v >>> 1)
  let v := v ||| (v >>> 2)
  let v := v ||| (v >>> 4)
  let v := v ||| (v >>> 8)
  let v := v ||| (v >>> 16)
  v + 1

/- ------------------------------------------------------------------ -/
/- hashmap_t and its operations (globals.c lines 115-236)              -/
/- ------------------------------------------------------------------ -/

/-- A chained hashmap: `size` buckets, each a list of key/value nodes in
chain order (head of the C linked list first).  The bucket array is a
total function so that out-of-range indices never arise; `hashmap_put`
and `hashmap_get` only ever touch index `hashmap_hash_index size key`,
which lies below `size` for the power-of-two sizes `hashmap_create`
produces. -/
structure hashmap_t (V : Type) where
  size : Nat
  buckets : Nat → List (cstr × V)

/-- `hashmap_put(map, key, val)`: hash the key, then either start the
bucket chain with the new node or walk to the tail and append it there.
(`hashmap_node_new` allocation is modelled as always succeeding.) -/
def hashmap_put {V : Type} (map : hashmap_t V) (key : cstr) (val : V) :
    hashmap_t V :=
  let index := hashmap_hash_index map.size key
  let chain :=
    match map.buckets index with
    | [] => [(key, val)]
    | cur => cur ++ [(key, val)]
  { map with buckets := fun j => if j = index then chain else map.buckets j }

/-- `hashmap_get(map, key)`: hash the key and return the value of the
first node in the bucket chain whose key is `strcmp`-equal, `none`
(NULL) otherwise. -/
def hashmap_get {V : Type} (map : hashmap_t V) (key : cstr) : Option V :=
  ((map.buckets (hashmap_hash_index map.size key)).find?
      (fun kv => decide (kv.1 = key))).map (fun kv => kv.2)

/-- `hashmap_contains(map, key)`: true iff `hashmap_get` is non-NULL. -/
def hashmap_contains {V : Type} (map : hashmap_t V) (key : cstr) : Bool :=
  (hashmap_get map key).isSome

/- ------------------------------------------------------------------ -/
/- Types and find_type (globals.c lines 279-301)                       -/
/- ------------------------------------------------------------------ -/

/-- The `base_type` discriminator of `type_t`. -/
inductive base_type_t where
  | TYPE_int
  | TYPE_char
  | TYPE_void
  | TYPE_struct
  | TYPE_typedef
deriving DecidableEq, Repr

export base_type_t (TYPE_int TYPE_char TYPE_void TYPE_struct TYPE_typedef)

/-- `type_t`: a named type.  `base_struct` models the C pointer to the
base structure of a forward-declared typedef, carrying the pointee
(NULL = `none`).  Only fields the claims inspect are modelled. -/
inductive type_t where
  | mk (type_name : cstr) (base_type : base_type_t) (size : Nat)
       (base_struct : Option type_t)

/-- `type_name` field of `type_t`. -/
def type_t.type_name : type_t → cstr
  | .mk n _ _ _ => n

/-- `base_type` field of `type_t`. -/
def type_t.base_type : type_t → base_type_t
  | .mk _ b _ _ => b

/-- `size` field of `type_t`. -/
def type_t.size : type_t → Nat
  | .mk _ _ s _ => s

/-- `base_struct` field of `type_t`. -/
def type_t.base_struct : type_t → Option type_t
  | .mk _ _ _ bs => bs

/-- `find_type(type_name, flag)` from globals.c: linear scan of the
first `types_idx` entries of `TYPES` (modelled as the list `types`).
Struct-tag entries are skipped when `flag = 1`; non-struct entries are
skipped when `flag = 2`; on a name match of a `TYPE_typedef` entry with
`size == 0` the entry's `base_struct` pointer is returned instead of
the entry itself. -/
def find_type (types : List type_t) (type_name : cstr) (flag : Nat) :
    Option type_t :=
  match types with
  | [] => none
  | t :: rest =>
    if t.base_type = TYPE_struct then
      if flag = 1 then find_type rest type_name flag
      else if t.type_name = type_name then some t
      else find_type rest type_name flag
    else
      if flag = 2 then find_type rest type_name flag
      else if t.type_name = type_name then
        if t.base_type = TYPE_typedef ∧ t.size = 0 then t.base_struct
        else some t
      else find_type rest type_name flag

/- ------------------------------------------------------------------ -/
/- Variables, functions, macros, blocks (globals.c lines 347-364,      -/
/- 423-458, 508-545)                                                   -/
/- ------------------------------------------------------------------ -/

/-- `var_t`: a declared name.  Besides `var_name` (the only field the
lookup routines compare), `init_val` is kept so distinct variables of
equal name remain distinguishable in examples. -/
structure var_t where
  var_name : cstr
  init_val : Int := 0
deriving DecidableEq, Repr

/-- `func_t`: `return_def` reuses the function name, `param_defs` holds
`num_params` parameter descriptors (`num_params` is the list length),
and `stack_size` starts at 4. -/
structure func_t where
  return_def : var_t
  param_defs : List var_t
  stack_size : Int
deriving DecidableEq, Repr

/-- `macro_t`: parameter definitions and, in parallel, the source
indices `params[i]` of the argument text at the current call site.
(`num_param_defs` is the length of `param_defs`.) -/
structure macro_t where
  name : cstr
  param_defs : List var_t
  params : List Int
  disabled : Bool
deriving DecidableEq, Repr

/-- `block_t`: a lexical scope with its declared locals (the first
`next_local` entries of `locals[]`), the enclosing block (`parent`,
NULL = `none`), the enclosing function (`func`) and the macro frame
(`mac`, the C field `macro`, non-NULL iff the block is a macro
expansion frame).  Pointees are carried inline, so a chain of `parent`
pointers is a finite inductive value. -/
inductive block_t where
  | mk (locals : List var_t) (parent : Option block_t)
       (func : Option func_t) (mac : Option macro_t)

/-- `locals` field of `block_t`. -/
def block_t.locals : block_t → List var_t
  | .mk l _ _ _ => l

/-- `parent` field of `block_t`. -/
def block_t.parent : block_t → Option block_t
  | .mk _ p _ _ => p

/-- `func` field of `block_t`. -/
def block_t.func : block_t → Option func_t
  | .mk _ _ f _ => f

/-- The C field `macro` of `block_t` (renamed: `macro` is reserved in
Lean). -/
def block_t.mac : block_t → Option macro_t
  | .mk _ _ _ m => m

/-- Result of a call to `find_macro_param_src_idx`: a returned source
index, a diagnostic raised through `error(msg)` (which aborts), or a
dereference of a NULL `block_t` pointer (undefined behavior in C,
modelled as a distinguished outcome). -/
inductive macro_param_result where
  | ok (idx : Int)
  | error_diag (msg : String)
  | null_deref
deriving DecidableEq

/-- The `for (i = 0; i < macro->num_param_defs; i++)` scan of
`find_macro_param_src_idx`: walk `param_defs` and the parallel
`params[]` array together; on the first `var_name` match return the
corresponding `params[i]`; fall through to 0.  (`params` is assumed to
be at least as long as `param_defs`, as the parser fills both in step;
a missing entry reads as 0.) -/
def macro_param_scan : List var_t → List Int → cstr → Int
  | [], _, _ => 0
  | d :: ds, ps, name =>
    if d.var_name = name then ps.headD 0
    else macro_param_scan ds ps.tail name

/-- `find_macro_param_src_idx(name, parent)` from globals.c, statement
for statement: the first statement `macro_t *macro = parent->macro;`
dereferences `parent`, so a NULL `parent` is a NULL-pointer dereference
and the subsequent `if (!parent) error(...)` check is dead; a non-NULL
`parent` with no macro frame returns 0; otherwise the parameter list is
scanned. -/
def find_macro_param_src_idx (name : cstr) (parent : Option block_t) :
    macro_param_result :=
  match parent with
  | none => macro_param_result.null_deref
  | some p =>
    match p.mac with
    | none => macro_param_result.ok 0
    | some m => macro_param_result.ok (macro_param_scan m.param_defs m.params name)

/-- The scan `for (i = 0; i < block->next_local; i++)` over a block's
locals: first variable whose `var_name` is `strcmp`-equal to `token`. -/
def scan_locals (token : cstr) (locals : List var_t) : Option var_t :=
  locals.find? (fun v => decide (v.var_name = token))

/-- The outer loop `for (; block; block = block->parent)` of
`find_local_var`: scan each block's locals, innermost first. -/
def walk_block_locals (token : cstr) : Option block_t → Option var_t
  | none => none
  | some (.mk locals parent _ _) =>
    match scan_locals token locals with
    | some v => some v
    | none => walk_block_locals token parent

/-- `find_local_var(token, block)` from globals.c: remember
`fn = block->func`, walk the parent chain scanning locals, then (if
`fn` is non-NULL) scan the function's `param_defs[0..num_params)`. -/
def find_local_var (token : cstr) (block : block_t) : Option var_t :=
  let fn := block.func
  match walk_block_locals token (some block) with
  | some v => some v
  | none =>
    match fn with
    | some f => scan_locals token f.param_defs
    | none => none

/-- `find_global_var(token)` from globals.c: scan the locals of the
block at the head of `BLOCKS` (passed here explicitly as `head`). -/
def find_global_var (token : cstr) (head : block_t) : Option var_t :=
  scan_locals token head.locals

/-- `find_var(token, parent)` from globals.c: `find_local_var` first,
`find_global_var` only if that failed.  `head` is the global block at
the head of `BLOCKS`. -/
def find_var (token : cstr) (parent : block_t) (head : block_t) :
    Option var_t :=
  match find_local_var token parent with
  | some v => some v
  | none => find_global_var token head

/-- Specification-side helper for stating the `find_var` search order:
the locals of a block chain, innermost block first. -/
def chain_locals : Option block_t → List var_t
  | none => []
  | some (.mk locals parent _ _) => locals ++ chain_locals parent

/-- Specification-side helper: the parameter list of the function of a
block (empty when `func` is NULL). -/
def block_params (b : block_t) : List var_t :=
  match b.func with
  | some f => f.param_defs
  | none => []

/- ------------------------------------------------------------------ -/
/- Aliases (globals.c lines 366-392)                                   -/
/- ------------------------------------------------------------------ -/

/-- `alias_t`: a text substitution `alias -> value` with a soft-delete
`disabled` flag.  (The C field `alias` is renamed `alias_name`: `alias`
is reserved in Lean.) -/
structure alias_t where
  alias_name : cstr
  value : cstr
  disabled : Bool
deriving DecidableEq, Repr

/-- `add_alias(alias, value)` from globals.c: append an enabled entry
at `ALIASES[aliases_idx++]`.  The occupied prefix of the arena is the
list `aliases`. -/
def add_alias (aliases : List alias_t) (al value : cstr) : List alias_t :=
  aliases ++ [{ alias_name := al, value := value, disabled := false }]

/-- `find_alias(alias)` from globals.c: first entry that is not
disabled and whose name is `strcmp`-equal; its `value`, or NULL. -/
def find_alias (aliases : List alias_t) (al : cstr) : Option cstr :=
  (aliases.find? (fun e => !e.disabled && decide (e.alias_name = al))).map
    (fun e => e.value)

/-- `remove_alias(alias)` from globals.c: set the `disabled` flag on
the first enabled `strcmp`-equal entry; returns the updated arena and
the function's boolean result. -/
def remove_alias (aliases : List alias_t) (al : cstr) :
    List alias_t × Bool :=
  match aliases with
  | [] => ([], false)
  | e :: rest =>
    if !e.disabled && decide (e.alias_name = al) then
      ({ e with disabled := true } :: rest, true)
    else
      let r := remove_alias rest al
      (e :: r.1, r.2)

/- ------------------------------------------------------------------ -/
/- add_func and FUNCS_MAP (globals.c lines 439-458)                    -/
/- ------------------------------------------------------------------ -/

/-- The state `add_func` operates on: `FUNCS_MAP` maps names to
function identifiers (C `func_t *` pointers), `funcs` is the heap of
`func_t` objects, and `next_fid` is the next fresh identifier `malloc`
hands out (its slot content models uninitialized memory). -/
structure funcs_state where
  map : hashmap_t Nat
  funcs : Nat → func_t
  next_fid : Nat

/-- Pointwise update of a function heap. -/
def update_funcs (h : Nat → func_t) (i : Nat) (f : func_t) :
    Nat → func_t :=
  fun j => if j = i then f else h j

/-- `add_func(name)` from globals.c: if `FUNCS_MAP` already contains
`name`, take the registered function; otherwise allocate a fresh one,
register it under `name`, and copy `name` into `return_def.var_name`.
Either way, finish with `fn->stack_size = 4`.  Returns the new state
and the returned `func_t *` identifier.  (`malloc` is modelled as
always succeeding.) -/
def add_func (st : funcs_state) (name : cstr) : funcs_state × Nat :=
  match hashmap_get st.map name with
  | some fid =>
    ({ st with
        funcs := update_funcs st.funcs fid
          { st.funcs fid with stack_size := 4 } },
      fid)
  | none =>
    let fid := st.next_fid
    let fn0 := st.funcs fid
    let fn1 := { fn0 with return_def := { fn0.return_def with var_name := name } }
    ({ st with
        map := hashmap_put st.map name fid,
        funcs := update_funcs st.funcs fid { fn1 with stack_size := 4 },
        next_fid := fid + 1 },
      fid)

/- ------------------------------------------------------------------ -/
/- Basic blocks and bb_connect (globals.c lines 582-630)               -/
/- ------------------------------------------------------------------ -/

/-- Modelled from the spec: the constant `MAX_BB_PRED` is defined in a
header that is not among the sources; the specification fixes it to 6
("Inserting a 7th predecessor (when `MAX_BB_PRED = 6`) ... must
abort"). -/
def MAX_BB_PRED : Nat := 6

/-- `bb_connection_type_t`: the edge kinds `NEXT`, `THEN`, `ELSE`. -/
inductive bb_connection_type_t where
  | NEXT
  | THEN
  | ELSE
deriving DecidableEq, Repr

/-- One predecessor slot of `basic_block_t.prev[]`: the predecessor
block pointer (`none` = NULL = empty slot) and the edge kind. -/
structure bb_connection_t where
  bb : Option Nat
  type : bb_connection_type_t
deriving DecidableEq, Repr

/-- `basic_block_t`, restricted to the fields `bb_connect` touches:
the `prev[MAX_BB_PRED]` slot array (modelled as a list of that length)
and the three successor pointers. -/
structure basic_block_t where
  prev : List bb_connection_t
  next : Option Nat
  then_ : Option Nat
  else_ : Option Nat
deriving DecidableEq, Repr

/-- A heap of basic blocks, addressed by identifier (`basic_block_t *`
pointers). -/
def bb_store := Nat → basic_block_t

/-- Pointwise update of a basic-block heap. -/
def update_bb (st : bb_store) (i : Nat) (b : basic_block_t) : bb_store :=
  fun j => if j = i then b else st j

/-- The `int i = 0; while (succ->prev[i].bb) i++;` scan of
`bb_connect`: index of the first slot whose `bb` is NULL.  Running off
the end of the list corresponds to the loop reading
`prev[MAX_BB_PRED]`, an out-of-bounds access, reported as `none`. -/
def find_empty_slot : List bb_connection_t → Option Nat
  | [] => none
  | c :: rest =>
    if c.bb = none then some 0
    else (find_empty_slot rest).map (fun i => i + 1)

/-- Outcome of `bb_connect`: an updated heap, the out-of-bounds read of
`succ->prev[MAX_BB_PRED]` by the slot-search loop (undefined behavior
in C), or the `i > MAX_BB_PRED - 1` guard's diagnostic-and-abort. -/
inductive connect_result where
  | ok (st : bb_store)
  | oob_read
  | abort_too_many

/-- `bb_connect(pred, succ, type)` from globals.c (the NULL checks on
`pred`/`succ` cannot fire here because identifiers always denote
blocks): search `succ->prev[]` for the first empty slot; check the
`i > MAX_BB_PRED - 1` guard; write `(pred, type)` into the slot and
`succ` into the successor field of `pred` selected by `type`. -/
def bb_connect (st : bb_store) (pred succ : Nat)
    (type : bb_connection_type_t) : connect_result :=
  match find_empty_slot (st succ).prev with
  | none => connect_result.oob_read
  | some i =>
    if i > MAX_BB_PRED - 1 then connect_result.abort_too_many
    else
      let s := st succ
      let st1 := update_bb st succ
        { s with prev := s.prev.set i { bb := some pred, type := type } }
      let p := st1 pred
      let p' :=
        match type with
        | .NEXT => { p with next := some succ }
        | .THEN => { p with then_ := some succ }
        | .ELSE => { p with else_ := some succ }
      connect_result.ok (update_bb st1 pred p')

/-- Specification-side selector: the successor field of a basic block
named by an edge kind (`next`, `then_` or `else_`). -/
def succ_field (type : bb_connection_type_t) (b : basic_block_t) :
    Option Nat :=
  match type with
  | .NEXT => b.next
  | .THEN => b.then_
  | .ELSE => b.else_

/- ================================================================== -/
/- Theorems                                                            -/
/- ================================================================== -/

/-- Helper: `hashmap_put` does not change the bucket count. -/
theorem hashmap_put_size {V : Type} (map : hashmap_t V) (key : cstr)
    (val : V) : (hashmap_put map key val).size = map.size := rfl

/-- Helper: `hashmap_put` appends its node at the end of the chain of
the bucket the key hashes to. -/
theorem hashmap_put_bucket {V : Type} (map : hashmap_t V) (key : cstr)
    (val : V) :
    (hashmap_put map key val).buckets (hashmap_hash_index map.size key) =
      map.buckets (hashmap_hash_index map.size key) ++ [(key, val)] := by
  unfold hashmap_put
  simp only [if_pos rfl]
  cases map.buckets (hashmap_hash_index map.size key) <;> simp

/-- Claim C9: for every power-of-two bucket count and every key, the
FNV-1a hash with sign folding (32-bit two's-complement wraparound, as
modelled bit-exactly in `hashmap_hash_index`) lands in `[0, size)`;
the lower bound is inherent to the `Nat` result. -/
theorem hashmap_hash_index_in_range (size : Nat) (key : cstr) (k : Nat)
    (hsize : size = 2 ^ k) :
    hashmap_hash_index size key < size := by
  subst hsize
  unfold hashmap_hash_index
  simp only []
  rw [Nat.and_pow_two_sub_one_eq_mod]
  exact Nat.mod_lt _ (Nat.two_pow_pos k)

/-- Witness for `hashmap_hash_index_in_range` at `size = 8` and the
key "foo". -/
theorem hashmap_hash_index_in_range_witness :
    (8 : Nat) = 2 ^ 3 ∧ hashmap_hash_index 8 [102, 111, 111] < 8 :=
  ⟨rfl, hashmap_hash_index_in_range 8 [102, 111, 111] 3 rfl⟩

/-- The hashmap used as counterexample for claim C1: key `[107]`
already registered with value 99 before the two puts. -/
def hashmap_cex : hashmap_t Nat := ⟨1, fun _ => [([107], 99)]⟩

/-- Counterexample to claim C1 as stated: on a hashmap that already
holds key `[107]` (value 99), `put k A; put k B; get k` returns the
pre-existing 99, not `A = 1` — first-match lookup reaches the old node
before either appended one. -/
theorem hashmap_shadow_cex :
    hashmap_get (hashmap_put (hashmap_put hashmap_cex [107] 1) [107] 2)
        [107] = some 99 ∧ (99 : Nat) ≠ 1 := by
  constructor
  · rfl
  · decide

/-- Claim C1 (amended: the key must not already be present in its
bucket): `hashmap_put` appends at the end of the bucket chain and
`hashmap_get` returns the first chain node with a matching key, so
after `put k A; put k B` a lookup of `k` returns `A` — the earlier put
wins and the later one is shadowed. -/
theorem hashmap_put_put_get {V : Type} (map : hashmap_t V) (k : cstr)
    (A B : V)
    (h : (map.buckets (hashmap_hash_index map.size k)).countP
        (fun kv => decide (kv.1 = k)) = 0) :
    hashmap_get (hashmap_put (hashmap_put map k A) k B) k = some A := by
  have e2 := hashmap_put_bucket (hashmap_put map k A) k B
  simp only [hashmap_put_size] at e2
  rw [hashmap_put_bucket map k A] at e2
  unfold hashmap_get
  simp only [hashmap_put_size]
  rw [e2, List.find?_append, List.find?_append]
  rw [List.find?_eq_none.mpr ?_]
  · simp
  · intro kv hkv
    simpa using List.countP_eq_zero.mp h kv hkv

/-- Witness map for `hashmap_put_put_get`: an empty 8-bucket map. -/
def hashmap_w : hashmap_t Nat := ⟨8, fun _ => []⟩

/-- Witness for `hashmap_put_put_get` on the empty map `hashmap_w`. -/
theorem hashmap_put_put_get_witness :
    ((hashmap_w.buckets (hashmap_hash_index hashmap_w.size [107])).countP
        (fun kv => decide (kv.1 = [107])) = 0) ∧
      hashmap_get (hashmap_put (hashmap_put hashmap_w [107] 5) [107] 6)
          [107] = some 5 :=
  ⟨rfl, hashmap_put_put_get hashmap_w [107] 5 6 rfl⟩

/-- Claim C3 (code bug): `find_macro_param_src_idx` executes
`macro_t *macro = parent->macro;` before its NULL check on `parent`,
so a NULL `parent` is a NULL-pointer dereference and the claimed
"macro expansion not supported at global scope" diagnostic is never
produced. -/
theorem find_macro_param_src_idx_null_parent :
    find_macro_param_src_idx [102] none = macro_param_result.null_deref ∧
      ∀ msg, macro_param_result.null_deref ≠
        macro_param_result.error_diag msg := by
  exact ⟨rfl, fun msg h => by cases h⟩

/-- The fully-occupied basic block heap used for claim C5: every
predecessor slot of every block is taken. -/
def bb_full_store : bb_store :=
  fun _ => ⟨List.replicate 6 ⟨some 0, bb_connection_type_t.NEXT⟩,
    none, none, none⟩

/-- Claim C5 (code bug): on a block whose `MAX_BB_PRED` predecessor
slots are all occupied, the slot-search loop of `bb_connect` runs past
the end of `prev[]` (reads `prev[MAX_BB_PRED]`, undefined behavior)
before the `i > MAX_BB_PRED - 1` abort guard can fire; no clean
too-many-predecessors abort is reached. -/
theorem bb_connect_full_oob :
    find_empty_slot (bb_full_store 1).prev = none ∧
      bb_connect bb_full_store 7 1 bb_connection_type_t.THEN =
        connect_result.oob_read :=
  ⟨rfl, rfl⟩

/-- The alias arena used as counterexample for claim C7: two enabled
entries both named `[88]`. -/
def aliases_cex : List alias_t := [⟨[88], [49], false⟩, ⟨[88], [50], false⟩]

/-- Counterexample to claim C7 as stated: with two enabled entries for
the same name, `remove_alias` disables only the first, so the
subsequent `find_alias` is not NULL (it returns the second entry's
value), and after re-adding, `find_alias` still returns the second
original entry, not the newly added value. -/
theorem alias_remove_readd_cex :
    (remove_alias aliases_cex [88]).2 = true ∧
      find_alias (remove_alias aliases_cex [88]).1 [88] ≠ none ∧
      find_alias (add_alias (remove_alias aliases_cex [88]).1 [88] [51])
          [88] ≠ some [51] := by
  refine ⟨rfl, ?_, ?_⟩ <;> decide

/-- Helper: disabling the first enabled match leaves no enabled match
when there was at most one. -/
theorem remove_alias_countP_zero (X : cstr) :
    ∀ l : List alias_t,
      l.countP (fun e => !e.disabled && decide (e.alias_name = X)) ≤ 1 →
      (remove_alias l X).1.countP
        (fun e => !e.disabled && decide (e.alias_name = X)) = 0 := by
  intro l
  induction l with
  | nil => intro _; rfl
  | cons e rest ih =>
    intro h
    rw [List.countP_cons] at h
    unfold remove_alias
    by_cases he : (!e.disabled && decide (e.alias_name = X)) = true
    · rw [if_pos he]
      simp only [he, if_true] at h
      have hrest : rest.countP
          (fun e => !e.disabled && decide (e.alias_name = X)) = 0 := by omega
      simp [List.countP_cons, hrest]
    · rw [if_neg he]
      simp only [he, if_false] at h
      simp [List.countP_cons, he, ih h]

/-- Claim C7 (amended: the name must have exactly one enabled entry in
`ALIASES`; with several enabled duplicates the linear scans disagree):
after `remove_alias X`, `find_alias X` is NULL, and after a subsequent
`add_alias X v`, `find_alias X` returns `v`, because both scans skip
entries whose `disabled` flag is set. -/
theorem alias_remove_readd (aliases : List alias_t) (X v : cstr)
    (h : aliases.countP
        (fun e => !e.disabled && decide (e.alias_name = X)) = 1) :
    find_alias (remove_alias aliases X).1 X = none ∧
      find_alias (add_alias (remove_alias aliases X).1 X v) X = some v := by
  have h0 := remove_alias_countP_zero X aliases (by omega)
  have hfind : (remove_alias aliases X).1.find?
      (fun e => !e.disabled && decide (e.alias_name = X)) = none :=
    List.find?_eq_none.mpr (fun e he => by
      simpa using List.countP_eq_zero.mp h0 e he)
  constructor
  · unfold find_alias
    rw [hfind]
    rfl
  · unfold add_alias find_alias
    rw [List.find?_append, hfind]
    simp [List.find?]

/-- Witness arena for `alias_remove_readd`: one enabled entry. -/
def aliases_w : List alias_t := [⟨[89], [55], false⟩]

/-- Witness for `alias_remove_readd` on the one-entry arena. -/
theorem alias_remove_readd_witness :
    (aliases_w.countP
        (fun e => !e.disabled && decide (e.alias_name = [89])) = 1) ∧
      (find_alias (remove_alias aliases_w [89]).1 [89] = none ∧
        find_alias (add_alias (remove_alias aliases_w [89]).1 [89] [56])
            [89] = some [56]) :=
  ⟨by decide, alias_remove_readd aliases_w [89] [56] (by decide)⟩

/-- Claim C10: calling `add_func` on a name already registered in
`FUNCS_MAP` allocates nothing and puts nothing: it returns the
registered function identifier, leaves the map and every other
function untouched, and its only effect on the returned function is
resetting `stack_size` to 4. -/
theorem add_func_existing (st : funcs_state) (name : cstr) (fid : Nat)
    (h : hashmap_get st.map name = some fid) :
    (add_func st name).2 = fid ∧
      (add_func st name).1.map = st.map ∧
      (add_func st name).1.next_fid = st.next_fid ∧
      (add_func st name).1.funcs fid = { st.funcs fid with stack_size := 4 } ∧
      ∀ g, g ≠ fid → (add_func st name).1.funcs g = st.funcs g := by
  unfold add_func
  rw [h]
  refine ⟨rfl, rfl, rfl, ?_, ?_⟩
  · simp [update_funcs]
  · intro g hg
    simp [update_funcs, hg]

/-- Witness map for `add_func_existing`: the name `[103]` registered
with function identifier 0. -/
def funcs_w : funcs_state :=
  ⟨⟨1, fun _ => [([103], 0)]⟩, fun _ => ⟨⟨[103], 0⟩, [], 20⟩, 1⟩

/-- Witness for `add_func_existing` on `funcs_w`. -/
theorem add_func_existing_witness :
    hashmap_get funcs_w.map [103] = some 0 ∧
      ((add_func funcs_w [103]).2 = 0 ∧
        (add_func funcs_w [103]).1.map = funcs_w.map ∧
        (add_func funcs_w [103]).1.next_fid = funcs_w.next_fid ∧
        (add_func funcs_w [103]).1.funcs 0 =
          { funcs_w.funcs 0 with stack_size := 4 } ∧
        ∀ g, g ≠ 0 → (add_func funcs_w [103]).1.funcs g = funcs_w.funcs g) :=
  ⟨rfl, add_func_existing funcs_w [103] 0 rfl⟩

/-- The struct entry `struct S` used in the claim C2 counterexample. -/
def type_S : type_t := .mk [83] TYPE_struct 8 none

/-- The forward-declared `typedef T` (size 0, `base_struct` = `S`)
used in the claim C2 counterexample. -/
def type_T : type_t := .mk [84] TYPE_typedef 0 (some type_S)

/-- Counterexample to claim C2 as stated: with `TYPES` holding
`struct S` and the forward-declared `typedef T` whose `base_struct`
is `S`, `find_type("T", 1)` returns the `struct S` entry — a type
whose `base_type` is struct — through the size-0 typedef redirect. -/
theorem find_type_flag1_cex :
    find_type [type_S, type_T] [84] 1 = some type_S ∧
      type_S.base_type = TYPE_struct :=
  ⟨rfl, rfl⟩

/-- Claim C2 (amended: under `flag = 1` struct-tag entries are never
matched, but a struct type can still be returned as the `base_struct`
of a matching forward-declared typedef): `find_type(name, 2)` only
returns types whose `base_type` is struct, and any struct-based result
of `find_type(name, 1)` is the `base_struct` of a `TYPE_typedef` entry
with `size = 0` that matched `name` — never a directly matched
struct-tag entry. -/
theorem find_type_flag_discipline (types : List type_t) (name : cstr) :
    (∀ t, find_type types name 2 = some t → t.base_type = TYPE_struct) ∧
    (∀ t, find_type types name 1 = some t → t.base_type = TYPE_struct →
      ∃ td ∈ types, td.base_type = TYPE_typedef ∧ td.size = 0 ∧
        td.type_name = name ∧ td.base_struct = some t) := by
  induction types with
  | nil =>
    constructor <;> intro t ht <;> simp [find_type] at ht
  | cons hd rest ih =>
    constructor
    · intro t ht
      unfold find_type at ht
      by_cases hs : hd.base_type = TYPE_struct
      · rw [if_pos hs, if_neg (by norm_num)] at ht
        by_cases hn : hd.type_name = name
        · rw [if_pos hn] at ht
          obtain rfl := Option.some.inj ht
          exact hs
        · rw [if_neg hn] at ht
          exact ih.1 t ht
      · rw [if_neg hs, if_pos rfl] at ht
        exact ih.1 t ht
    · intro t ht hstruct
      unfold find_type at ht
      by_cases hs : hd.base_type = TYPE_struct
      · rw [if_pos hs, if_pos rfl] at ht
        obtain ⟨td, htd, hrest⟩ := ih.2 t ht hstruct
        exact ⟨td, List.mem_cons_of_mem _ htd, hrest⟩
      · rw [if_neg hs, if_neg (by norm_num)] at ht
        by_cases hn : hd.type_name = name
        · rw [if_pos hn] at ht
          by_cases htdf : hd.base_type = TYPE_typedef ∧ hd.size = 0
          · rw [if_pos htdf] at ht
            exact ⟨hd, List.mem_cons_self _ _, htdf.1, htdf.2, hn, ht⟩
          · rw [if_neg htdf] at ht
            obtain rfl := Option.some.inj ht
            exact absurd hstruct hs
        · rw [if_neg hn] at ht
          obtain ⟨td, htd, hrest⟩ := ih.2 t ht hstruct
          exact ⟨td, List.mem_cons_of_mem _ htd, hrest⟩

/-- Witness struct entry for `find_type_flag_discipline`. -/
def type_w : type_t := .mk [85] TYPE_struct 4 none

/-- Witness for `find_type_flag_discipline`: a `flag = 2` lookup that
finds the struct tag `[85]`. -/
theorem find_type_flag_discipline_witness :
    find_type [type_w] [85] 2 = some type_w ∧
      type_w.base_type = TYPE_struct :=
  ⟨rfl, (find_type_flag_discipline [type_w] [85]).1 type_w rfl⟩

/-- Helper: when fewer slots are occupied than the array holds, the
`while (succ->prev[i].bb) i++` scan stops at an in-bounds index. -/
theorem find_empty_slot_spec :
    ∀ l : List bb_connection_t,
      l.countP (fun c => c.bb.isSome) < l.length →
      ∃ i, find_empty_slot l = some i ∧ i < l.length := by
  intro l
  induction l with
  | nil => intro h; simp at h
  | cons c rest ih =>
    intro h
    by_cases hc : c.bb = none
    · exact ⟨0, by simp [find_empty_slot, hc], by simp⟩
    · have hsome : c.bb.isSome = true := by
        cases hcb : c.bb
        · exact absurd hcb hc
        · rfl
      rw [List.countP_cons] at h
      simp only [hsome, if_true] at h
      have hlt : rest.countP (fun c => c.bb.isSome) < rest.length := by
        simp only [List.length_cons] at h
        omega
      obtain ⟨i, hfi, hlen⟩ := ih hlt
      refine ⟨i + 1, ?_, by simp; omega⟩
      simp [find_empty_slot, hc, hfi]

/-- Helper: writing a value not yet present into a cell of a list
makes it occur exactly once. -/
theorem count_set_eq_one {α : Type} [DecidableEq α] :
    ∀ (l : List α) (i : Nat) (x : α), i < l.length →
      (∀ c ∈ l, c ≠ x) → (l.set i x).count x = 1 := by
  intro l
  induction l with
  | nil => intro i x h; simp at h
  | cons a t ih =>
    intro i x hi hne
    cases i with
    | zero =>
      have ht : t.count x = 0 :=
        List.count_eq_zero.mpr
          (fun hx => (hne x (List.mem_cons_of_mem a hx)) rfl)
      simp [List.count_cons, ht]
    | succ n =>
      have ha : a ≠ x := hne a (List.mem_cons_self a t)
      have hax : ¬ (x = a) := fun h => ha h.symm
      simp only [List.set, List.count_cons]
      rw [ih n x (by simpa using hi)
          (fun c hc => hne c (List.mem_cons_of_mem _ hc))]
      simp [ha, hax]

/-- Claim C4: when `succ` has a free predecessor slot (at most
`MAX_BB_PRED - 1` occupied) and no existing edge from `pred`,
`bb_connect` succeeds, records `(pred, type)` in exactly one slot of
`succ->prev[]`, and sets the successor field of `pred` selected by
`type` to `succ`. -/
theorem bb_connect_adds_edge (st : bb_store) (pred succ : Nat)
    (type : bb_connection_type_t)
    (hlen : (st succ).prev.length = MAX_BB_PRED)
    (hocc : (st succ).prev.countP (fun c => c.bb.isSome) ≤ MAX_BB_PRED - 1)
    (hnew : (st succ).prev.countP (fun c => decide (c.bb = some pred)) = 0) :
    ∃ st', bb_connect st pred succ type = connect_result.ok st' ∧
      (st' succ).prev.count
        { bb := some pred, type := type : bb_connection_t } = 1 ∧
      succ_field type (st' pred) = some succ := by
  have hmax : MAX_BB_PRED = 6 := rfl
  obtain ⟨i, hfi, hilen⟩ :=
    find_empty_slot_spec (st succ).prev (by omega)
  have hig : ¬ i > MAX_BB_PRED - 1 := by omega
  have hcnt : ((st succ).prev.set i
      { bb := some pred, type := type : bb_connection_t }).count
        { bb := some pred, type := type : bb_connection_t } = 1 := by
    apply count_set_eq_one _ _ _ hilen
    intro c hc hceq
    have := List.countP_eq_zero.mp hnew c hc
    rw [hceq] at this
    simp at this
  have hconn : bb_connect st pred succ type = connect_result.ok
      (update_bb
        (update_bb st succ
          { st succ with
              prev := (st succ).prev.set i ⟨some pred, type⟩ })
        pred
        (match type with
          | .NEXT =>
            { update_bb st succ
                { st succ with
                    prev := (st succ).prev.set i ⟨some pred, type⟩ } pred
              with next := some succ }
          | .THEN =>
            { update_bb st succ
                { st succ with
                    prev := (st succ).prev.set i ⟨some pred, type⟩ } pred
              with then_ := some succ }
          | .ELSE =>
            { update_bb st succ
                { st succ with
                    prev := (st succ).prev.set i ⟨some pred, type⟩ } pred
              with else_ := some succ })) := by
    unfold bb_connect
    rw [hfi]
    dsimp only
    rw [if_neg hig]
    cases type <;> rfl
  refine ⟨_, hconn, ?_, ?_⟩
  · by_cases hps : succ = pred
    · subst hps
      cases type <;>
        simp only [update_bb, if_pos rfl] <;>
        exact hcnt
    · cases type <;>
        simp only [update_bb, if_neg hps, if_pos rfl] <;>
        exact hcnt
  · cases type <;> simp [update_bb, succ_field]

/-- Witness heap for `bb_connect_adds_edge`: every block is fresh, as
`bb_create` initializes it (all predecessor slots NULL with type
`NEXT`). -/
def bb_w_store : bb_store :=
  fun _ => ⟨List.replicate 6 ⟨none, bb_connection_type_t.NEXT⟩,
    none, none, none⟩

/-- Witness for `bb_connect_adds_edge`: a THEN edge from block 0 to
block 1 on the fresh heap. -/
theorem bb_connect_adds_edge_witness :
    ((bb_w_store 1).prev.length = MAX_BB_PRED ∧
        (bb_w_store 1).prev.countP (fun c => c.bb.isSome) ≤
          MAX_BB_PRED - 1 ∧
        (bb_w_store 1).prev.countP (fun c => decide (c.bb = some 0)) = 0) ∧
      ∃ st', bb_connect bb_w_store 0 1 bb_connection_type_t.THEN =
          connect_result.ok st' ∧
        (st' 1).prev.count
          { bb := some 0, type := bb_connection_type_t.THEN :
            bb_connection_t } = 1 ∧
        succ_field bb_connection_type_t.THEN (st' 0) = some 1 :=
  ⟨⟨by decide, by decide, by decide⟩,
    bb_connect_adds_edge bb_w_store 0 1 bb_connection_type_t.THEN
      (by decide) (by decide) (by decide)⟩

/-- Helper: the parent-chain walk of `find_local_var` returns the first
match over the concatenated locals of the chain, innermost block
first. -/
theorem walk_block_locals_eq_find (token : cstr) :
    ∀ ob : Option block_t,
      walk_block_locals token ob =
        (chain_locals ob).find? (fun v => decide (v.var_name = token))
  | none => by simp [walk_block_locals, chain_locals]
  | some (.mk locals parent f m) => by
    have ih := walk_block_locals_eq_find token parent
    simp only [walk_block_locals, chain_locals, List.find?_append]
    unfold scan_locals
    cases h : locals.find? (fun v => decide (v.var_name = token)) with
    | some v => simp [h]
    | none => simp [h, ih]

/-- Helper: `find_local_var` is the first match over chain locals
followed by the enclosing function's parameters. -/
theorem find_local_var_eq_find (token : cstr) (b : block_t) :
    find_local_var token b =
      (chain_locals (some b) ++ block_params b).find?
        (fun v => decide (v.var_name = token)) := by
  unfold find_local_var block_params
  rw [List.find?_append, walk_block_locals_eq_find]
  cases h : (chain_locals (some b)).find?
      (fun v => decide (v.var_name = token)) with
  | some v => simp [h]
  | none =>
    simp only [h, Option.none_or]
    cases hf : b.func with
    | some f => simp [scan_locals]
    | none => simp

/-- Claim C6: `find_var` implements exactly the search order
"innermost block's locals, outward through parent blocks, then the
enclosing function's parameters, then the global block's locals" —
it returns the first name match of that concatenation, so the global
block (head of `BLOCKS`) is consulted only when no local or parameter
matched, and a local in a nested block shadows a same-named global. -/
theorem find_var_search_order (token : cstr) (b head : block_t) :
    find_var token b head =
      (chain_locals (some b) ++ block_params b ++ head.locals).find?
        (fun v => decide (v.var_name = token)) := by
  unfold find_var find_global_var
  rw [List.find?_append, find_local_var_eq_find]
  cases h : (chain_locals (some b) ++ block_params b).find?
      (fun v => decide (v.var_name = token)) with
  | some v => simp [h]
  | none => simp [h, scan_locals]

/-- The five or-shift smearing steps of `round_up_pow2` in isolation
(applied to the already decremented value). -/
def smear (n : Nat) : Nat :=
  let v := n ||| (n >>> 1)
  let v := v ||| (v >>> 2)
  let v := v ||| (v >>> 4)
  let v := v ||| (v >>> 8)
  let v := v ||| (v >>> 16)
  v

/-- Helper: `round_up_pow2` is decrement, smear, increment. -/
theorem round_up_pow2_eq_smear (v : Nat) :
    round_up_pow2 v = smear (v - 1) + 1 := rfl

/-- Helper: one or-shift step doubles the window of source bits that
can set a result bit. -/
theorem smear_step (w w2 m n : Nat) (hw : w2 = 2 * w)
    (h : ∀ i, m.testBit i = true ↔ ∃ c < w, n.testBit (i + c) = true) :
    ∀ i, (m ||| (m >>> w)).testBit i = true ↔
      ∃ c < w2, n.testBit (i + c) = true := by
  subst hw
  intro i
  rw [Nat.testBit_lor, Bool.or_eq_true, Nat.testBit_shiftRight]
  constructor
  · rintro (h1 | h2)
    · obtain ⟨c, hc, hb⟩ := (h i).1 h1
      exact ⟨c, by omega, hb⟩
    · obtain ⟨c, hc, hb⟩ := (h (w + i)).1 h2
      refine ⟨w + c, by omega, ?_⟩
      rw [show i + (w + c) = w + i + c by omega]
      exact hb
  · rintro ⟨c, hc, hb⟩
    by_cases hcw : c < w
    · exact Or.inl ((h i).2 ⟨c, hcw, hb⟩)
    · refine Or.inr ((h (w + i)).2 ⟨c - w, by omega, ?_⟩)
      rw [show w + i + (c - w) = i + c by omega]
      exact hb

/-- Helper: a bit of `smear n` is set exactly when one of the 32 bit
positions at or above it is set in `n`. -/
theorem smear_window (n : Nat) :
    ∀ i, (smear n).testBit i = true ↔
      ∃ c < 32, n.testBit (i + c) = true := by
  have h0 : ∀ i, n.testBit i = true ↔
      ∃ c < 1, n.testBit (i + c) = true := by
    intro i
    constructor
    · intro h
      exact ⟨0, Nat.zero_lt_one, by simpa using h⟩
    · rintro ⟨c, hc, hb⟩
      have : c = 0 := by omega
      subst this
      simpa using hb
  have h1 := smear_step 1 2 n n (by norm_num) h0
  have h2 := smear_step 2 4 _ n (by norm_num) h1
  have h4 := smear_step 4 8 _ n (by norm_num) h2
  have h8 := smear_step 8 16 _ n (by norm_num) h4
  have h16 := smear_step 16 32 _ n (by norm_num) h8
  intro i
  exact h16 i

/-- Helper: the most significant bit of a nonzero number is set. -/
theorem testBit_size_pred (n : Nat) (hn : n ≠ 0) :
    n.testBit (n.size - 1) = true := by
  have hpos : 0 < n := Nat.pos_of_ne_zero hn
  have hszpos : 0 < n.size := Nat.size_pos.mpr hpos
  have h1 : 2 ^ (n.size - 1) ≤ n := Nat.lt_size.mp (by omega)
  have h2 : n < 2 ^ n.size := Nat.lt_size_self n
  have hppos : 0 < 2 ^ (n.size - 1) := Nat.two_pow_pos _
  have hdiv1 : 1 ≤ n / 2 ^ (n.size - 1) := (Nat.one_le_div_iff hppos).mpr h1
  have hdiv2 : n / 2 ^ (n.size - 1) < 2 := by
    have hs : n.size = (n.size - 1) + 1 := by omega
    rw [Nat.div_lt_iff_lt_mul hppos]
    calc n < 2 ^ n.size := h2
      _ = 2 ^ ((n.size - 1) + 1) := by rw [← hs]
      _ = 2 ^ (n.size - 1) * 2 := Nat.pow_succ 2 (n.size - 1)
      _ = 2 * 2 ^ (n.size - 1) := by ring
  have hdiv : n / 2 ^ (n.size - 1) = 1 := by omega
  rw [Nat.testBit_to_div_mod, hdiv]
  rfl

/-- Helper: for a 31-bit value the smear fills every bit below the
most significant one: the result is `2 ^ size n - 1`. -/
theorem smear_eq_two_pow_sub_one (n : Nat) (hn : n < 2 ^ 31) :
    smear n = 2 ^ n.size - 1 := by
  apply Nat.eq_of_testBit_eq
  intro i
  rw [Nat.testBit_two_pow_sub_one]
  by_cases hi : i < n.size
  · have hnz : n ≠ 0 := by
      intro h
      rw [h, Nat.size_zero] at hi
      omega
    have hsle : n.size ≤ 31 := Nat.size_le.mpr hn
    have hmsb := testBit_size_pred n hnz
    have hset : (smear n).testBit i = true :=
      (smear_window n i).2 ⟨n.size - 1 - i, by omega, by
        rw [show i + (n.size - 1 - i) = n.size - 1 by omega]
        exact hmsb⟩
    rw [hset]
    simp [hi]
  · have hfalse : (smear n).testBit i = false := by
      cases hb : (smear n).testBit i with
      | false => rfl
      | true =>
        obtain ⟨c, hc, hcb⟩ := (smear_window n i).1 hb
        have : n.testBit (i + c) = false :=
          Nat.testBit_lt_two_pow (lt_of_lt_of_le (Nat.lt_size_self n)
            (Nat.pow_le_pow_right (by norm_num) (by omega)))
        rw [this] at hcb
        cases hcb
    rw [hfalse]
    simp [hi]

/-- Claim C8: for `1 ≤ v ≤ 2^30`, `round_up_pow2 v` is the least power
of two greater than or equal to `v`: it is a power of two, at least
`v`, and no smaller power of two reaches `v`. -/
theorem round_up_pow2_least (v : Nat) (h1 : 1 ≤ v) (h2 : v ≤ 2 ^ 30) :
    ∃ k, round_up_pow2 v = 2 ^ k ∧ v ≤ 2 ^ k ∧
      ∀ j, v ≤ 2 ^ j → 2 ^ k ≤ 2 ^ j := by
  have hn : v - 1 < 2 ^ 31 := by
    have : (2 : Nat) ^ 30 < 2 ^ 31 := by norm_num
    omega
  refine ⟨(v - 1).size, ?_, ?_, ?_⟩
  · rw [round_up_pow2_eq_smear, smear_eq_two_pow_sub_one _ hn]
    have := Nat.two_pow_pos (v - 1).size
    omega
  · have := Nat.lt_size_self (v - 1)
    omega
  · intro j hj
    have hlt : v - 1 < 2 ^ j := by omega
    exact Nat.pow_le_pow_right (by norm_num) (Nat.size_le.mpr hlt)

/-- Witness for `round_up_pow2_least` at `v = 5` (result 8). -/
theorem round_up_pow2_least_witness :
    1 ≤ (5 : Nat) ∧ (5 : Nat) ≤ 2 ^ 30 ∧
      ∃ k, round_up_pow2 5 = 2 ^ k ∧ 5 ≤ 2 ^ k ∧
        ∀ j, 5 ≤ 2 ^ j → 2 ^ k ≤ 2 ^ j :=
  ⟨by norm_num, by norm_num,
    round_up_pow2_least 5 (by norm_num) (by norm_num)⟩
